import Mathlib

/-
Verification of the Substack content-synchronization pipeline of the
ask-satvik-ai repository.

The repository contains two near-duplicate implementations of the pipeline:
a standalone CLI sync script (`sync-substack` script: `cleanHTMLTags`,
`extractXMLContent`, `parseRSSFeed`, `getFullPostContent`,
`syncSubstackContent`) and a hosted edge function (`serve` handler with its
own copies of the same helpers).  Both are embedded below; definitions whose
name carries an `Edge` suffix come from the hosted-function variant, the
plain names come from the CLI script.

Modelling conventions:
- strings are `List Char`; JavaScript `String.prototype.trim` is `jsTrim`;
- the JavaScript regular expressions used by the source are modelled by
  executable scanners with the same observable semantics (leftmost match,
  greedy character classes with backtracking, lazy capture group up to the
  first occurrence of the closing literal, case-insensitive flag);
- network and database effects are oracles: the feed text, the per-item
  fetched page body, the ISO conversion of `new Date(pubDate)` (`none`
  models the `RangeError` thrown for an unparseable date), the current
  timestamp, and the success of each storage write are inputs, and the
  article store is an explicit list threaded through the run.
-/

set_option maxRecDepth 10000

/-- JavaScript whitespace recognized by `String.prototype.trim`
(restricted to the characters that can occur in this development). -/
def isJsWs (c : Char) : Bool :=
  c == ' ' || c == '\t' || c == '\n' || c == '\r' || c == '\x0b' || c == '\x0c' ||
    c == Char.ofNat 160

/-- JavaScript `String.prototype.trim`. -/
def jsTrim (l : List Char) : List Char :=
  ((l.dropWhile isJsWs).reverse.dropWhile isJsWs).reverse

/-- Case-insensitive prefix test (the `i` regular-expression flag). -/
def ciPref : List Char → List Char → Bool
  | [], _ => true
  | _ :: _, [] => false
  | a :: as, b :: bs => (a.toLower == b.toLower) && ciPref as bs

/-- Split a list at the first case-insensitive occurrence of `pat`,
returning the part strictly before it; `none` when `pat` does not occur.
This is the semantics of a lazy `([\s\S]*?)` capture followed by the
literal `pat`. -/
def splitAtCi (pat : List Char) : List Char → Option (List Char)
  | [] => if pat.isEmpty then some [] else none
  | c :: rest =>
    if ciPref pat (c :: rest) then some []
    else
      match splitAtCi pat rest with
      | some inner => some (c :: inner)
      | none => none

/-- Split a list at the first (case-sensitive) occurrence of the literal
`pat`, returning the part before it and the part after it. -/
def splitAtLit (pat : List Char) : List Char → Option (List Char × List Char)
  | [] => if pat.isEmpty then some ([], []) else none
  | c :: rest =>
    if pat.isPrefixOf (c :: rest) then some ([], List.drop pat.length (c :: rest))
    else
      match splitAtLit pat rest with
      | some (bef, aft) => some (c :: bef, aft)
      | none => none

/-- Drop everything up to and including the first closing angle bracket;
`none` when there is none.  Models the `[^>]*>` step of the tag regex. -/
def dropThroughGt : List Char → Option (List Char)
  | [] => none
  | c :: rest => if c = '>' then some rest else dropThroughGt rest

/-- The tag-stripping pass `.replace(/<[^>]*>/g, '')` shared by both
`cleanHTMLTags` variants: every span from a `<` to the first following `>`
is removed; a `<` with no later `>` is kept.  Structural recursion on a
fuel bounded below by the input length (each step consumes at least one
character, so the fuel never runs out for the wrapper below). -/
def removeTagsF : Nat → List Char → List Char
  | 0, _ => []
  | fuel + 1, l =>
    match l with
    | [] => []
    | c :: rest =>
      if c = '<' then
        match dropThroughGt rest with
        | some aft => removeTagsF fuel aft
        | none => c :: removeTagsF fuel rest
      else c :: removeTagsF fuel rest

def removeTags (s : List Char) : List Char := removeTagsF s.length s

/-- Literal global replacement `.replace(/pat/g, rep)` for a literal
pattern: non-overlapping, left to right, the replacement text is not
rescanned.  Fuel-structured like `removeTagsF`; with fuel below the input
length the remainder is returned unchanged, which the wrapper never
triggers. -/
def replaceListF (pat rep : List Char) : Nat → List Char → List Char
  | 0, l => l
  | fuel + 1, l =>
    match l with
    | [] => []
    | c :: rest =>
      if ¬pat.isEmpty ∧ pat.isPrefixOf (c :: rest) then
        rep ++ replaceListF pat rep fuel (List.drop pat.length (c :: rest))
      else
        c :: replaceListF pat rep fuel rest

def replaceList (pat rep : List Char) (s : List Char) : List Char :=
  replaceListF pat rep s.length s

def quotEnt : List Char := "&quot;".data
def ampEnt : List Char := "&amp;".data
def ltEnt : List Char := "&lt;".data
def gtEnt : List Char := "&gt;".data
def aposEnt : List Char := "&#39;".data
def nbspEnt : List Char := "&nbsp;".data
def quotChar : List Char := [Char.ofNat 34]
def ampChar : List Char := [Char.ofNat 38]
def ltChar : List Char := [Char.ofNat 60]
def gtChar : List Char := [Char.ofNat 62]
def aposChar : List Char := [Char.ofNat 39]
def spaceChar : List Char := [Char.ofNat 32]

/-- `cleanHTMLTags` of the CLI sync script: strip tag spans, then decode,
in source order, the entities quote, ampersand, less-than, greater-than,
apostrophe and non-breaking space, then trim. -/
def cleanHTMLTags (html : List Char) : List Char :=
  jsTrim
    (replaceList nbspEnt spaceChar
      (replaceList aposEnt aposChar
        (replaceList gtEnt gtChar
          (replaceList ltEnt ltChar
            (replaceList ampEnt ampChar
              (replaceList quotEnt quotChar
                (removeTags html)))))))

/-- `cleanHTMLTags` of the hosted edge function: identical to the CLI
version except that the non-breaking-space entity is not decoded. -/
def cleanHTMLTagsEdge (html : List Char) : List Char :=
  jsTrim
    (replaceList aposEnt aposChar
      (replaceList gtEnt gtChar
        (replaceList ltEnt ltChar
          (replaceList ampEnt ampChar
            (replaceList quotEnt quotChar
              (removeTags html))))))

/-- One token of the restricted regular expressions used by the source:
a case-insensitive literal, a greedy negated character class `[^c]*`, or
the final lazy capture group `([\s\S]*?)` up to a closing literal. -/
inductive Tok where
  | lit : List Char → Tok
  | notStar : Char → Tok
  | grp : List Char → Tok
deriving DecidableEq

/-- Backtracking for a greedy `[^c]*`: try the longest permitted drop
first, then shorter ones, exactly as a backtracking engine does. -/
def tryDrops (f : List Char → Option (List Char)) (s : List Char) : Nat → Option (List Char)
  | 0 => f s
  | Nat.succ k =>
    match f (List.drop (k + 1) s) with
    | some g => some g
    | none => tryDrops f s k

/-- Match a token sequence (ending in a `grp` token) against the start of
`s`, returning the text captured by the group.  Literals are matched
case-insensitively (`i` flag), `[^c]*` is greedy with backtracking, and
the group captures lazily up to the first occurrence of its closing
literal. -/
def matchPat : List Tok → List Char → Option (List Char)
  | [], _ => none
  | Tok.grp close :: _, s => splitAtCi close s
  | Tok.lit w :: ts, s =>
    if ciPref w s then matchPat ts (List.drop w.length s) else none
  | Tok.notStar c :: ts, s =>
    tryDrops (fun s2 => matchPat ts s2) s ((s.takeWhile (fun d => d != c)).length)

/-- Leftmost match: `String.prototype.match` with a non-global regex —
try every start position from the left, returning the first capture. -/
def regexFind (pat : List Tok) : List Char → Option (List Char)
  | [] => matchPat pat []
  | c :: rest =>
    match matchPat pat (c :: rest) with
    | some g => some g
    | none => regexFind pat rest

/-- The pattern of `extractXMLContent`:
`<tag[^>]*>([\s\S]*?)</tag>` with the `i` flag. -/
def xmlTagPat (tag : List Char) : List Tok :=
  [Tok.lit ('<' :: tag), Tok.notStar '>', Tok.lit ['>'],
   Tok.grp ('<' :: '/' :: (tag ++ ['>']))]

/-- `extractXMLContent` (identical in both pipeline variants): the trimmed
first capture of `<tag[^>]*>([\s\S]*?)</tag>`, or the empty string when
the pattern does not match. -/
def extractXMLContent (xml : List Char) (tag : List Char) : List Char :=
  match regexFind (xmlTagPat tag) xml with
  | some inner => jsTrim inner
  | none => []

/-- A parsed feed item (the `RSSItem` interface of both variants):
`contentEncoded` is the raw `content:encoded` capture, empty when absent
(JavaScript truthiness on the extractor result). -/
structure RSSItem where
  title : List Char
  link : List Char
  pubDate : List Char
  description : List Char
  contentEncoded : List Char
  guid : List Char
deriving DecidableEq

def itemOpen : List Char := "<item>".data
def itemClose : List Char := "</item>".data
def tagTitle : List Char := "title".data
def tagLink : List Char := "link".data
def tagPubDate : List Char := "pubDate".data
def tagDescription : List Char := "description".data
def tagContentEncoded : List Char := "content:encoded".data
def tagGuid : List Char := "guid".data

/-- The per-item body of the parse loop (identical shape in both
variants, CLI and edge differ only in their sanitizer `cl`): extract the
six fields, require the RAW extracted title, link and pubDate to be
non-empty, then build the item with sanitized title and description and
with `guid` defaulted to `link`. -/
def buildItemWith (cl : List Char → List Char) (inner : List Char) : Option RSSItem :=
  let title := extractXMLContent inner tagTitle
  let link := extractXMLContent inner tagLink
  let pubDate := extractXMLContent inner tagPubDate
  let description := extractXMLContent inner tagDescription
  let contentEncoded := extractXMLContent inner tagContentEncoded
  let guid := extractXMLContent inner tagGuid
  if ¬title.isEmpty ∧ ¬link.isEmpty ∧ ¬pubDate.isEmpty then
    some { title := cl title, link := link, pubDate := pubDate,
           description := cl description, contentEncoded := contentEncoded,
           guid := if ¬guid.isEmpty then guid else link }
  else none

/-- Modelled from the spec for comparison only (the claim C4 reading):
a per-item builder that requires the title to be non-empty AFTER
sanitization, as §3 of the spec states.  The source checks the raw title
instead; see the C4 theorems. -/
def buildItemSpecWith (cl : List Char → List Char) (inner : List Char) : Option RSSItem :=
  let title := extractXMLContent inner tagTitle
  let link := extractXMLContent inner tagLink
  let pubDate := extractXMLContent inner tagPubDate
  let description := extractXMLContent inner tagDescription
  let contentEncoded := extractXMLContent inner tagContentEncoded
  let guid := extractXMLContent inner tagGuid
  if ¬(cl title).isEmpty ∧ ¬link.isEmpty ∧ ¬pubDate.isEmpty then
    some { title := cl title, link := link, pubDate := pubDate,
           description := cl description, contentEncoded := contentEncoded,
           guid := if ¬guid.isEmpty then guid else link }
  else none

/-- The successive matches of the global regex `/<item>([\s\S]*?)<\/item>/g`:
the inner text of each item block, in feed order, the scan resuming after
each closing literal.  Fuel-structured; each step consumes at least the
opening and closing literals, so fuel equal to the input length (the
wrapper below) is always sufficient. -/
def itemBlocksF : Nat → List Char → List (List Char)
  | 0, _ => []
  | fuel + 1, s =>
    match splitAtLit itemOpen s with
    | none => []
    | some (_, afterOpen) =>
      match splitAtLit itemClose afterOpen with
      | none => []
      | some (inner, rest) => inner :: itemBlocksF fuel rest

def itemBlocks (s : List Char) : List (List Char) := itemBlocksF s.length s

/-- The parse loop shared by both `parseRSSFeed` variants, transcribed
directly: repeatedly take the next `<item>…</item>` block from the feed
text, extract the fields, and push the item exactly when the raw title,
link and pubDate are non-empty.  Fuel-structured like `itemBlocksF`. -/
def parseLoopWithF (cl : List Char → List Char) : Nat → List Char → List RSSItem
  | 0, _ => []
  | fuel + 1, s =>
    match splitAtLit itemOpen s with
    | none => []
    | some (_, afterOpen) =>
      match splitAtLit itemClose afterOpen with
      | none => []
      | some (inner, rest) =>
        match buildItemWith cl inner with
        | some it => it :: parseLoopWithF cl fuel rest
        | none => parseLoopWithF cl fuel rest

def parseLoopWith (cl : List Char → List Char) (s : List Char) : List RSSItem :=
  parseLoopWithF cl s.length s

/-- `parseRSSFeed` of the CLI sync script, applied to already-fetched feed
text (the fetch itself is handled by the orchestrator model). -/
def parseRSSFeed (s : List Char) : List RSSItem :=
  parseLoopWith cleanHTMLTags s

/-- `parseRSSFeed` of the hosted edge function (same loop, edge
sanitizer). -/
def parseRSSFeedEdge (s : List Char) : List RSSItem :=
  parseLoopWith cleanHTMLTagsEdge s

/-- Outcome of an HTTP fetch: `fail` covers both a thrown transport error
and a non-ok response (both produce the empty-string result in the
source); `ok` carries the response body. -/
inductive FetchResult where
  | fail : FetchResult
  | ok : List Char → FetchResult
deriving DecidableEq

def classQuote : List Char := "class=".data ++ [Char.ofNat 34]

/-- `/<div[^>]*class="[^"]*markup[^"]*"[^>]*>([\s\S]*?)<\/div>/i` -/
def markupDivPat : List Tok :=
  [Tok.lit ("<div".data), Tok.notStar '>', Tok.lit classQuote,
   Tok.notStar (Char.ofNat 34), Tok.lit ("markup".data),
   Tok.notStar (Char.ofNat 34), Tok.lit [Char.ofNat 34],
   Tok.notStar '>', Tok.lit ['>'], Tok.grp ("</div>".data)]

/-- `/<div[^>]*class="[^"]*post-content[^"]*"[^>]*>([\s\S]*?)<\/div>/i` -/
def postContentDivPat : List Tok :=
  [Tok.lit ("<div".data), Tok.notStar '>', Tok.lit classQuote,
   Tok.notStar (Char.ofNat 34), Tok.lit ("post-content".data),
   Tok.notStar (Char.ofNat 34), Tok.lit [Char.ofNat 34],
   Tok.notStar '>', Tok.lit ['>'], Tok.grp ("</div>".data)]

/-- `/<article[^>]*>([\s\S]*?)<\/article>/i` -/
def articlePat : List Tok :=
  [Tok.lit ("<article".data), Tok.notStar '>', Tok.lit ['>'],
   Tok.grp ("</article>".data)]

/-- `/<div[^>]*class="[^"]*body[^"]*"[^>]*>([\s\S]*?)<\/div>/i` -/
def bodyDivPat : List Tok :=
  [Tok.lit ("<div".data), Tok.notStar '>', Tok.lit classQuote,
   Tok.notStar (Char.ofNat 34), Tok.lit ("body".data),
   Tok.notStar (Char.ofNat 34), Tok.lit [Char.ofNat 34],
   Tok.notStar '>', Tok.lit ['>'], Tok.grp ("</div>".data)]

/-- The `contentSelectors` array of the CLI script, in priority order. -/
def contentSelectors : List (List Tok) :=
  [markupDivPat, postContentDivPat, articlePat, bodyDivPat]

/-- The selector loop of the CLI `getFullPostContent`: first pattern whose
sanitized capture is longer than 100 characters wins; a match whose
sanitized text is short is passed over and the next pattern is tried. -/
def tryLoop : List (List Tok) → List Char → List Char
  | [], _ => []
  | p :: ps, html =>
    match regexFind p html with
    | some m =>
      let cleanedContent := cleanHTMLTags m
      if 100 < cleanedContent.length then cleanedContent else tryLoop ps html
    | none => tryLoop ps html

/-- `getFullPostContent` of the CLI script: empty string on transport
failure or non-ok response; otherwise the selector loop over the body. -/
def getFullPostContent : FetchResult → List Char
  | FetchResult.fail => []
  | FetchResult.ok html => tryLoop contentSelectors html

/-- `getFullPostContent` of the hosted edge function: only the markup-div
pattern then the article pattern, no substantial-content threshold — the
sanitized capture is returned even when short or empty. -/
def getFullPostContentEdge : FetchResult → List Char
  | FetchResult.fail => []
  | FetchResult.ok html =>
    match regexFind markupDivPat html with
    | some m => cleanHTMLTagsEdge m
    | none =>
      match regexFind articlePat html with
      | some m => cleanHTMLTagsEdge m
      | none => []

/-- A persisted article row (the `articles` table). -/
structure Article where
  id : Nat
  title : List Char
  content : List Char
  url : List Char
  published_at : List Char
  summary : List Char
  substack_id : List Char
  updated_at : List Char
deriving DecidableEq

/-- `select ... .eq('url', link).single()`: the row whose `url` equals the
link (`url` is unique in the store). -/
def findByUrl (store : List Article) (url : List Char) : Option Article :=
  store.find? (fun a => a.url == url)

/-- `insert([postData])`: the store assigns a fresh id. -/
def insertArticle (store : List Article) (a : Article) : List Article :=
  store ++ [{ a with id := store.length }]

/-- `update(postData).eq('id', i)`: overwrite the payload columns of the
row with id `i`, keeping its id. -/
def updateArticle (store : List Article) (i : Nat) (a : Article) : List Article :=
  store.map (fun b => if b.id = i then { a with id := i } else b)

/-- Per-item outcome, as counted by the CLI script (the edge function has
no skip path and no error counter; `errored` there only labels a logged
failure). -/
inductive Outcome where
  | inserted : Outcome
  | updated : Outcome
  | skipped : Outcome
  | errored : Outcome
deriving DecidableEq

/-- Per-item effect oracles: the page body returned by
`getFullPostContent` (already empty on fetch failure), the result of
`new Date(item.pubDate).toISOString()` (`none` = the conversion throws),
the `new Date().toISOString()` timestamp, and whether the storage write
succeeds. -/
structure ItemEnv where
  fetched : List Char
  dateISO : Option (List Char)
  nowISO : List Char
  writeOk : Bool
deriving DecidableEq

/-- Result of processing one item: the store afterwards, the outcome, and
whether an exception escaped to the per-item catch (which skips the
rate-limit delay that follows in the loop body). -/
structure StepResult where
  store : List Article
  outcome : Outcome
  threw : Bool
deriving DecidableEq

/-- Content-candidate selection of the CLI script: start from the
(sanitized) description; under full sync a non-empty fetched body replaces
it only when strictly longer; then a present `content:encoded`, sanitized,
replaces it only when strictly longer. -/
def candidateScript (fullSync : Bool) (item : RSSItem) (fetched : List Char) : List Char :=
  let c1 := item.description
  let c2 :=
    if fullSync then
      if ¬fetched.isEmpty ∧ c1.length < fetched.length then fetched else c1
    else c1
  if ¬item.contentEncoded.isEmpty then
    let encodedContent := cleanHTMLTags item.contentEncoded
    if c2.length < encodedContent.length then encodedContent else c2
  else c2

/-- Content-candidate selection of the hosted edge function.  The lookup
there selects only `id, url`, so `existing.content` is always undefined
and the guard `fullSync && (!existing || !existing.content)` reduces to
`fullSync`; a non-empty fetched body replaces the description with no
length comparison, and a present `content:encoded` then replaces the
candidate unconditionally. -/
def candidateEdge (fullSync : Bool) (item : RSSItem) (fetched : List Char) : List Char :=
  let c1 := item.description
  let c2 :=
    if fullSync then
      if ¬fetched.isEmpty then fetched else c1
    else c1
  if ¬item.contentEncoded.isEmpty then cleanHTMLTagsEdge item.contentEncoded else c2

def ellipsisStr : List Char := "...".data

/-- The `postData` record built by the CLI script (`substack_id` is
`item.guid || item.link`). -/
def mkPostData (item : RSSItem) (content iso now : List Char) : Article :=
  { id := 0, title := item.title, content := content, url := item.link,
    published_at := iso,
    summary := item.description.take 500 ++
      (if 500 < item.description.length then ellipsisStr else []),
    substack_id := if ¬item.guid.isEmpty then item.guid else item.link,
    updated_at := now }

/-- The `postData` record built by the edge function (`substack_id` is
`item.guid` with no fallback). -/
def mkPostDataEdge (item : RSSItem) (content iso now : List Char) : Article :=
  { id := 0, title := item.title, content := content, url := item.link,
    published_at := iso,
    summary := item.description.take 500 ++
      (if 500 < item.description.length then ellipsisStr else []),
    substack_id := item.guid,
    updated_at := now }

/-- One iteration of the CLI sync loop body: look up the record by url,
select the content candidate, build `postData` (this is where an
unparseable `pubDate` throws), then update only when full sync is
requested or the candidate differs from the stored content, insert when
no record exists, and turn a failed write into an errored outcome. -/
def processItemScript (fullSync : Bool) (item : RSSItem) (env : ItemEnv)
    (store : List Article) : StepResult :=
  let existing := findByUrl store item.link
  let fullContent := candidateScript fullSync item env.fetched
  match env.dateISO with
  | none => { store := store, outcome := Outcome.errored, threw := true }
  | some iso =>
    let postData := mkPostData item fullContent iso env.nowISO
    match existing with
    | some e =>
      if fullSync = true ∨ e.content ≠ fullContent then
        if env.writeOk then
          { store := updateArticle store e.id postData, outcome := Outcome.updated,
            threw := false }
        else { store := store, outcome := Outcome.errored, threw := false }
      else { store := store, outcome := Outcome.skipped, threw := false }
    | none =>
      if env.writeOk then
        { store := insertArticle store postData, outcome := Outcome.inserted,
          threw := false }
      else { store := store, outcome := Outcome.errored, threw := false }

/-- One iteration of the edge-function loop body: an existing record is
always updated — there is no change-detection guard and no skip path;
write failures are logged but counted nowhere. -/
def processItemEdge (fullSync : Bool) (item : RSSItem) (env : ItemEnv)
    (store : List Article) : StepResult :=
  let existing := findByUrl store item.link
  let fullContent := candidateEdge fullSync item env.fetched
  match env.dateISO with
  | none => { store := store, outcome := Outcome.errored, threw := true }
  | some iso =>
    let postData := mkPostDataEdge item fullContent iso env.nowISO
    match existing with
    | some e =>
      if env.writeOk then
        { store := updateArticle store e.id postData, outcome := Outcome.updated,
          threw := false }
      else { store := store, outcome := Outcome.errored, threw := false }
    | none =>
      if env.writeOk then
        { store := insertArticle store postData, outcome := Outcome.inserted,
          threw := false }
      else { store := store, outcome := Outcome.errored, threw := false }

/-- The run counters of the CLI script. -/
structure SyncStats where
  newCount : Nat
  updatedCount : Nat
  errorCount : Nat
deriving DecidableEq

/-- Observable result of a CLI run: the per-item outcomes in feed order,
the counters, the final store, and the indices after which the 1-second
rate-limit delay was awaited. -/
structure RunResult where
  outcomes : List Outcome
  stats : SyncStats
  store : List Article
  delays : List Nat
deriving DecidableEq

def bumpStats (o : Outcome) (st : SyncStats) : SyncStats :=
  match o with
  | Outcome.inserted => { st with newCount := st.newCount + 1 }
  | Outcome.updated => { st with updatedCount := st.updatedCount + 1 }
  | Outcome.errored => { st with errorCount := st.errorCount + 1 }
  | Outcome.skipped => st

/-- The CLI item loop (`for (const [index, item] of rssItems.entries())`):
`total` is `rssItems.length` and `idx` the current index.  The delay
`if (fullSync && index < rssItems.length - 1) await …` sits at the end of
the `try` block, so it is reached only when the item threw nothing. -/
def runItemsScript (fullSync : Bool) (total idx : Nat) (store : List Article) :
    List (RSSItem × ItemEnv) → RunResult
  | [] => { outcomes := [], stats := ⟨0, 0, 0⟩, store := store, delays := [] }
  | (item, env) :: rest =>
    let p := processItemScript fullSync item env store
    let r := runItemsScript fullSync total (idx + 1) p.store rest
    { outcomes := p.outcome :: r.outcomes
      stats := bumpStats p.outcome r.stats
      store := r.store
      delays :=
        (if fullSync = true ∧ idx < total - 1 ∧ p.threw = false then [idx] else []) ++
          r.delays }

/-- `syncSubstackContent` of the CLI script: a failed feed fetch is the
only error that escapes to the outer catch (`process.exit(1)`); an empty
item list returns early with zero counts; otherwise every item is
processed by the loop above.  `envs` supplies the per-item effect
oracles. -/
def syncSubstackContent (fullSync : Bool) (feed : Option (List Char))
    (envs : List ItemEnv) (store : List Article) : Except Unit RunResult :=
  match feed with
  | none => Except.error ()
  | some text =>
    let rssItems := parseRSSFeed text
    Except.ok (runItemsScript fullSync rssItems.length 0 store (rssItems.zip envs))

/-- The counters reported by the edge function: only new and updated
posts — the result of a hosted run carries no error count at all. -/
structure EdgeStats where
  newCount : Nat
  updatedCount : Nat
deriving DecidableEq

/-- Observable result of an edge-function run.  `delays` is always empty:
the hosted loop contains no rate-limit delay. -/
structure EdgeRunResult where
  outcomes : List Outcome
  stats : EdgeStats
  store : List Article
  delays : List Nat
deriving DecidableEq

def bumpEdgeStats (o : Outcome) (st : EdgeStats) : EdgeStats :=
  match o with
  | Outcome.inserted => { st with newCount := st.newCount + 1 }
  | Outcome.updated => { st with updatedCount := st.updatedCount + 1 }
  | _ => st

/-- The edge-function item loop: no delay, no error counter. -/
def runItemsEdge (fullSync : Bool) (store : List Article) :
    List (RSSItem × ItemEnv) → EdgeRunResult
  | [] => { outcomes := [], stats := ⟨0, 0⟩, store := store, delays := [] }
  | (item, env) :: rest =>
    let p := processItemEdge fullSync item env store
    let r := runItemsEdge fullSync p.store rest
    { outcomes := p.outcome :: r.outcomes
      stats := bumpEdgeStats p.outcome r.stats
      store := r.store
      delays := r.delays }

/-- The `serve` handler of the edge function: a failed feed fetch
propagates out of `parseRSSFeed` to the outer catch (a 500 response);
otherwise the items are processed and a summary is returned. -/
def serveSync (fullSync : Bool) (feed : Option (List Char))
    (envs : List ItemEnv) (store : List Article) : Except Unit EdgeRunResult :=
  match feed with
  | none => Except.error ()
  | some text =>
    let rssItems := parseRSSFeedEdge text
    Except.ok (runItemsEdge fullSync store (rssItems.zip envs))

/-- A minimal feed item: no encoded content, guid equal to link. -/
def itemA : RSSItem :=
  { title := "T".data, link := "u".data, pubDate := "d".data,
    description := "hello".data, contentEncoded := [], guid := "u".data }

/-- An item whose `content:encoded` sanitizes to a single character while
its description is longer. -/
def itemEnc : RSSItem :=
  { title := "T".data, link := "u".data, pubDate := "d".data,
    description := "a longer description".data,
    contentEncoded := "<p>x</p>".data, guid := "u".data }

/-- A sample ISO timestamp produced by the date oracle. -/
def isoD : List Char := "D".data

/-- A sample `new Date().toISOString()` value. -/
def nowN : List Char := "N".data

def xStr : List Char := "x".data

/-- Oracles for a healthy item: parseable date, successful write. -/
def envOk : ItemEnv :=
  { fetched := [], dateISO := some isoD, nowISO := nowN, writeOk := true }

/-- Oracles for an item whose `pubDate` cannot be parsed:
`new Date(...).toISOString()` throws. -/
def envBadDate : ItemEnv :=
  { fetched := [], dateISO := none, nowISO := nowN, writeOk := true }

/-- Oracles for an item whose storage write fails. -/
def envNoWrite : ItemEnv :=
  { fetched := [], dateISO := some isoD, nowISO := nowN, writeOk := false }

/-- The article row produced by inserting `itemA` with the `envOk`
oracles into an empty store. -/
def articleA : Article :=
  { id := 0, title := "T".data, content := "hello".data, url := "u".data,
    published_at := isoD, summary := "hello".data, substack_id := "u".data,
    updated_at := nowN }

/-- A feed whose single item has a non-empty raw title that sanitizes to
the empty string. -/
def exFeedTagTitle : List Char :=
  "<item><title><b></b></title><link>u</link><pubDate>d</pubDate></item>".data

/-- A feed whose single item carries a present but unparseable date. -/
def exBadDateFeed : List Char :=
  "<item><title>T</title><link>u</link><pubDate>not a date</pubDate></item>".data

/-- A page whose markup div holds only two characters of text. -/
def exShortHtml : List Char :=
  "<div ".data ++ classQuote ++ "markup".data ++ [Char.ofNat 34] ++ ">hi</div>".data

/-- Double-escaped markup: one sanitizer pass turns it into real tags. -/
def dblEscStr : List Char := "&amp;lt;b&amp;gt;".data

def ltBGtStr : List Char := "<b>".data

def ampQuotStr : List Char := "&amp;quot;".data

/-- Sample input showing the non-breaking-space decode of the CLI
sanitizer. -/
def nbspExStr : List Char := "a&nbsp;b".data

def nbspExRes : List Char := "a b".data

/-- Tag-free, entity-free text. -/
def plainStr : List Char := "plain text".data

def hiStr : List Char := "hi".data

def badDateStr : List Char := "not a date".data

/-- A stored row for `itemA`'s url whose content differs from the
candidate, used to exercise the failed-update case. -/
def articleOld : Article := { articleA with content := "old".data }

/-- Whether a character list still contains a `<` later followed by a `>`
(the shape a tag-removal pass must eliminate). -/
def hasOpenClose (l : List Char) : Bool :=
  (l.dropWhile (fun c => c != '<')).any (fun c => c == '>')

theorem dropWhile_dropWhile (p : Char → Bool) (l : List Char) :
    List.dropWhile p (List.dropWhile p l) = List.dropWhile p l := by
  cases h : List.dropWhile p l with
  | nil => simp
  | cons a as =>
    have ha := List.head_dropWhile_not p l (by simp [h])
    simp [h] at ha
    simp [List.dropWhile_cons, ha]

theorem dropWhile_eq_self_of_head (p : Char → Bool) (c : Char) (l : List Char)
    (h : p c = false) : List.dropWhile p (c :: l) = c :: l := by
  simp [List.dropWhile_cons, h]

theorem jsTrim_idem (l : List Char) : jsTrim (jsTrim l) = jsTrim l := by
  unfold jsTrim
  cases hA : l.dropWhile isJsWs with
  | nil => simp
  | cons a as =>
    have haw : isJsWs a = false := by
      have := List.head_dropWhile_not isJsWs l (by simp [hA])
      simpa [hA] using this
    set C := List.dropWhile isJsWs ((a :: as).reverse) with hC
    have hpre : C.reverse <+: (a :: as) := by
      have hsuf : C <:+ (a :: as).reverse := List.dropWhile_suffix isJsWs
      have := List.reverse_prefix.mpr hsuf
      simpa using this
    have hdropRev : List.dropWhile isJsWs C.reverse = C.reverse := by
      cases hCr : C.reverse with
      | nil => simp
      | cons b bs =>
        have hb : b = a := by
          rcases hpre with ⟨t, ht⟩
          rw [hCr] at ht
          exact (List.cons.injEq ..).mp ht.symm |>.1 |>.symm
        rw [dropWhile_eq_self_of_head]
        rw [hb]
        exact haw
    rw [hdropRev]
    rw [List.reverse_reverse]
    rw [dropWhile_dropWhile]

theorem mem_of_mem_jsTrim {c : Char} {l : List Char} (h : c ∈ jsTrim l) : c ∈ l := by
  unfold jsTrim at h
  rw [List.mem_reverse] at h
  have h1 : c ∈ (l.dropWhile isJsWs).reverse := (List.dropWhile_sublist ..).subset h
  rw [List.mem_reverse] at h1
  exact (List.dropWhile_sublist ..).subset h1

theorem replaceListF_eq_self (pat rep : List Char) (p : Char) (hp : pat.head? = some p) :
    ∀ (f : Nat) (s : List Char), p ∉ s → replaceListF pat rep f s = s := by
  intro f
  induction f with
  | zero => intro s _; rfl
  | succ f ih =>
    intro s hmem
    cases s with
    | nil => rfl
    | cons c rest =>
      have hne : ¬(¬pat.isEmpty ∧ pat.isPrefixOf (c :: rest)) := by
        rintro ⟨-, hpre⟩
        cases pat with
        | nil => simp at hp
        | cons q qs =>
          have hq : q = p := by simpa using hp
          have hqc : q = c := by
            simp [List.isPrefixOf] at hpre
            exact hpre.1
          exact hmem (by rw [← hq, ← hqc]; exact List.mem_cons_self ..)
      simp only [replaceListF]
      rw [if_neg hne, ih rest (fun hr => hmem (List.mem_cons_of_mem _ hr))]

theorem replaceList_eq_self (pat rep s : List Char) (p : Char) (hp : pat.head? = some p)
    (hmem : p ∉ s) : replaceList pat rep s = s :=
  replaceListF_eq_self pat rep p hp s.length s hmem

theorem dropThroughGt_none_not_mem (l : List Char) (h : dropThroughGt l = none) :
    '>' ∉ l := by
  induction l with
  | nil => simp
  | cons a as ih =>
    by_cases ha : a = '>'
    · simp [dropThroughGt, ha] at h
    · simp [dropThroughGt, ha] at h
      simp [ha]
      exact ⟨fun hh => ha hh.symm, ih h⟩

theorem dropThroughGt_subset (l r : List Char) (h : dropThroughGt l = some r) :
    ∀ c, c ∈ r → c ∈ l := by
  induction l generalizing r with
  | nil => simp [dropThroughGt] at h
  | cons a as ih =>
    intro c hc
    by_cases ha : a = '>'
    · simp [dropThroughGt, ha] at h
      exact List.mem_cons_of_mem _ (h ▸ hc)
    · simp [dropThroughGt, ha] at h
      exact List.mem_cons_of_mem _ (ih r h c hc)

theorem dropThroughGt_length (l r : List Char) (h : dropThroughGt l = some r) :
    r.length < l.length := by
  induction l generalizing r with
  | nil => simp [dropThroughGt] at h
  | cons a as ih =>
    by_cases ha : a = '>'
    · simp [dropThroughGt, ha] at h
      simp [← h]
    · simp [dropThroughGt, ha] at h
      exact Nat.lt_trans (ih r h) (by simp)

theorem mem_removeTagsF : ∀ (f : Nat) (s : List Char) (c : Char),
    c ∈ removeTagsF f s → c ∈ s := by
  intro f
  induction f with
  | zero => intro s c hc; simp [removeTagsF] at hc
  | succ f ih =>
    intro s c hc
    cases s with
    | nil => simp [removeTagsF] at hc
    | cons a rest =>
      simp only [removeTagsF] at hc
      by_cases ha : a = '<'
      · rw [if_pos ha] at hc
        cases hgt : dropThroughGt rest with
        | some aft =>
          rw [hgt] at hc
          exact List.mem_cons_of_mem _ (dropThroughGt_subset rest aft hgt c (ih aft c hc))
        | none =>
          rw [hgt] at hc
          rcases List.mem_cons.mp hc with hc1 | hc2
          · exact hc1 ▸ List.mem_cons_self ..
          · exact List.mem_cons_of_mem _ (ih rest c hc2)
      · rw [if_neg ha] at hc
        rcases List.mem_cons.mp hc with hc1 | hc2
        · exact hc1 ▸ List.mem_cons_self ..
        · exact List.mem_cons_of_mem _ (ih rest c hc2)

theorem mem_removeTags (s : List Char) (c : Char) (h : c ∈ removeTags s) : c ∈ s :=
  mem_removeTagsF s.length s c h

theorem removeTagsF_eq_self : ∀ (f : Nat) (s : List Char), s.length ≤ f → '<' ∉ s →
    removeTagsF f s = s := by
  intro f
  induction f with
  | zero =>
    intro s hs _
    cases s with
    | nil => rfl
    | cons a rest => simp at hs
  | succ f ih =>
    intro s hs hmem
    cases s with
    | nil => rfl
    | cons a rest =>
      have ha : a ≠ '<' := fun hcon => hmem (hcon ▸ List.mem_cons_self ..)
      simp only [removeTagsF]
      rw [if_neg ha,
        ih rest (by simp at hs; omega) (fun hr => hmem (List.mem_cons_of_mem _ hr))]

theorem removeTags_eq_self (s : List Char) (h : '<' ∉ s) : removeTags s = s :=
  removeTagsF_eq_self s.length s (Nat.le_refl _) h

theorem hasOpenClose_removeTagsF : ∀ (f : Nat) (s : List Char),
    hasOpenClose (removeTagsF f s) = false := by
  intro f
  induction f with
  | zero => intro s; rfl
  | succ f ih =>
    intro s
    cases s with
    | nil => rfl
    | cons a rest =>
      simp only [removeTagsF]
      by_cases ha : a = '<'
      · rw [if_pos ha]
        cases hgt : dropThroughGt rest with
        | some aft => exact ih aft
        | none =>
          rw [ha]
          have hnogt : '>' ∉ removeTagsF f rest := fun hmem =>
            dropThroughGt_none_not_mem rest hgt (mem_removeTagsF f rest '>' hmem)
          unfold hasOpenClose
          rw [dropWhile_eq_self_of_head _ _ _ (by simp)]
          simp only [List.any_cons, List.any_eq_false, Bool.or_eq_false_iff]
          constructor
          · decide
          · intro b hb
            simp only [beq_iff_eq]
            exact fun hcon => hnogt (hcon ▸ hb)
      · rw [if_neg ha]
        unfold hasOpenClose at ih ⊢
        rw [List.dropWhile_cons]
        have hpr : (a != '<') = true := by simp [ha]
        rw [if_pos hpr]
        exact ih rest

theorem removeTags_no_open_close (s : List Char) : hasOpenClose (removeTags s) = false :=
  hasOpenClose_removeTagsF s.length s

theorem cleanHTMLTags_eq_jsTrim (s : List Char) (h1 : '<' ∉ s) (h2 : '&' ∉ s) :
    cleanHTMLTags s = jsTrim s := by
  unfold cleanHTMLTags
  rw [removeTags_eq_self s h1,
    replaceList_eq_self quotEnt quotChar s '&' (by decide) h2,
    replaceList_eq_self ampEnt ampChar s '&' (by decide) h2,
    replaceList_eq_self ltEnt ltChar s '&' (by decide) h2,
    replaceList_eq_self gtEnt gtChar s '&' (by decide) h2,
    replaceList_eq_self aposEnt aposChar s '&' (by decide) h2,
    replaceList_eq_self nbspEnt spaceChar s '&' (by decide) h2]

theorem cleanHTMLTagsEdge_eq_jsTrim (s : List Char) (h1 : '<' ∉ s) (h2 : '&' ∉ s) :
    cleanHTMLTagsEdge s = jsTrim s := by
  unfold cleanHTMLTagsEdge
  rw [removeTags_eq_self s h1,
    replaceList_eq_self quotEnt quotChar s '&' (by decide) h2,
    replaceList_eq_self ampEnt ampChar s '&' (by decide) h2,
    replaceList_eq_self ltEnt ltChar s '&' (by decide) h2,
    replaceList_eq_self gtEnt gtChar s '&' (by decide) h2,
    replaceList_eq_self aposEnt aposChar s '&' (by decide) h2]

/-- Claim C3 (amended): both sanitizers remove every tag span — no `<`
followed by a later `>` survives the tag pass — and then decode entities
in the source order quote, ampersand, less-than, greater-than, apostrophe
(and non-breaking space, CLI variant only: the hosted variant decodes
five entities, not six), then trim; the result is trim-stable and the
functions are total, so no input raises.  Because the ampersand is NOT
decoded first (the quote entity precedes it) and IS decoded before the
angle-bracket entities, double-escaped input has markup characters
reintroduced — the claimed decode order and its "never reintroduces
markup" consequence fail; see `sanitizer_entity_order_cex`. -/
theorem sanitizer_passes_in_source_order :
    (∀ s : List Char, hasOpenClose (removeTags s) = false)
    ∧ (∀ s : List Char, jsTrim (cleanHTMLTags s) = cleanHTMLTags s)
    ∧ (∀ s : List Char, jsTrim (cleanHTMLTagsEdge s) = cleanHTMLTagsEdge s)
    ∧ cleanHTMLTags quotEnt = quotChar
    ∧ cleanHTMLTags ampEnt = ampChar
    ∧ cleanHTMLTags ltEnt = ltChar
    ∧ cleanHTMLTags gtEnt = gtChar
    ∧ cleanHTMLTags aposEnt = aposChar
    ∧ cleanHTMLTags nbspExStr = nbspExRes
    ∧ cleanHTMLTagsEdge nbspEnt = nbspEnt
    ∧ cleanHTMLTags ampQuotStr = quotEnt
    ∧ cleanHTMLTags dblEscStr = ltBGtStr := by
  refine ⟨removeTags_no_open_close, ?_, ?_, by decide, by decide, by decide, by decide,
    by decide, by decide, by decide, by decide, by decide⟩
  · intro s
    unfold cleanHTMLTags
    rw [jsTrim_idem]
  · intro s
    unfold cleanHTMLTagsEdge
    rw [jsTrim_idem]

/-- Claim C3 counterexample: the source decodes the quote entity before
the ampersand entity (so `&amp;quot;` yields `&quot;`, not `"`), the
ampersand is decoded before the angle-bracket entities so one pass over
double-escaped input reintroduces real markup characters, and the hosted
sanitizer decodes five entities, leaving `&nbsp;` untouched. -/
theorem sanitizer_entity_order_cex :
    cleanHTMLTags dblEscStr = ltBGtStr ∧ '<' ∈ ltBGtStr ∧ '>' ∈ ltBGtStr
    ∧ cleanHTMLTags ampQuotStr = quotEnt ∧ quotEnt ≠ quotChar
    ∧ cleanHTMLTagsEdge nbspEnt = nbspEnt ∧ nbspEnt ≠ spaceChar := by
  decide

/-- Claim C10: one sanitizer pass over `&amp;lt;b&amp;gt;` yields `<b>`
— reintroduced markup that a second pass strips — so `clean` is not
idempotent; on text free of `<` and `&` (no tags, no entity escapes) both
sanitizer variants are idempotent. -/
theorem sanitizer_not_idempotent :
    cleanHTMLTags (cleanHTMLTags dblEscStr) ≠ cleanHTMLTags dblEscStr
    ∧ cleanHTMLTagsEdge (cleanHTMLTagsEdge dblEscStr) ≠ cleanHTMLTagsEdge dblEscStr
    ∧ (∀ s : List Char, '<' ∉ s → '&' ∉ s →
        cleanHTMLTags (cleanHTMLTags s) = cleanHTMLTags s)
    ∧ (∀ s : List Char, '<' ∉ s → '&' ∉ s →
        cleanHTMLTagsEdge (cleanHTMLTagsEdge s) = cleanHTMLTagsEdge s) := by
  refine ⟨by decide, by decide, ?_, ?_⟩
  · intro s h1 h2
    rw [cleanHTMLTags_eq_jsTrim s h1 h2,
      cleanHTMLTags_eq_jsTrim _ (fun hm => h1 (mem_of_mem_jsTrim hm))
        (fun hm => h2 (mem_of_mem_jsTrim hm)),
      jsTrim_idem]
  · intro s h1 h2
    rw [cleanHTMLTagsEdge_eq_jsTrim s h1 h2,
      cleanHTMLTagsEdge_eq_jsTrim _ (fun hm => h1 (mem_of_mem_jsTrim hm))
        (fun hm => h2 (mem_of_mem_jsTrim hm)),
      jsTrim_idem]

/-- Witness for C10: the idempotence part applied to concrete tag-free,
entity-free text. -/
theorem sanitizer_not_idempotent_witness :
    '<' ∉ plainStr ∧ '&' ∉ plainStr
    ∧ cleanHTMLTags (cleanHTMLTags plainStr) = cleanHTMLTags plainStr :=
  ⟨by decide, by decide, sanitizer_not_idempotent.2.2.1 plainStr (by decide) (by decide)⟩

theorem parseLoopWithF_eq_filterMap (cl : List Char → List Char) :
    ∀ (f : Nat) (s : List Char),
      parseLoopWithF cl f s = (itemBlocksF f s).filterMap (buildItemWith cl) := by
  intro f
  induction f with
  | zero => intro s; rfl
  | succ f ih =>
    intro s
    simp only [parseLoopWithF, itemBlocksF]
    cases h1 : splitAtLit itemOpen s with
    | none => rfl
    | some p =>
      cases p with
      | mk x afterOpen =>
        cases h2 : splitAtLit itemClose afterOpen with
        | none => simp [h2]
        | some q =>
          cases q with
          | mk inner rest =>
            cases hb : buildItemWith cl inner with
            | some it => simp [h2, hb, ih]
            | none => simp [h2, hb, ih]

/-- Claim C4 (amended): `parse` returns one `FeedItem` per `<item>` block
whose RAW extracted title, link and pubDate are non-empty — the
required-field check runs before sanitization, so an item whose title
sanitizes to the empty string is still returned (with an empty sanitized
title); blocks failing the raw check are absent, order matches feed
order, and the function is total (no error).  See
`parse_sanitized_title_cex` for the part of the original claim this
corrects. -/
theorem parse_one_item_per_block :
    (∀ (cl : List Char → List Char) (s : List Char),
      parseLoopWith cl s = (itemBlocks s).filterMap (buildItemWith cl))
    ∧ (∀ s : List Char,
      parseRSSFeed s = (itemBlocks s).filterMap (buildItemWith cleanHTMLTags))
    ∧ (∀ s : List Char,
      parseRSSFeedEdge s = (itemBlocks s).filterMap (buildItemWith cleanHTMLTagsEdge)) := by
  refine ⟨fun cl s => parseLoopWithF_eq_filterMap cl s.length s,
    fun s => parseLoopWithF_eq_filterMap cleanHTMLTags s.length s,
    fun s => parseLoopWithF_eq_filterMap cleanHTMLTagsEdge s.length s⟩

/-- Claim C4 counterexample: a block whose title is `<b></b>` — non-empty
raw text that sanitizes to the empty string.  The claim says such a block
is absent from the result; the code returns it, with an empty title
(which also violates the spec's FeedItem invariant "title non-empty after
sanitization").  `buildItemSpecWith` is the spec-modelled check. -/
theorem parse_sanitized_title_cex :
    (parseRSSFeed exFeedTagTitle).length = 1
    ∧ (parseRSSFeed exFeedTagTitle).map RSSItem.title = [[]]
    ∧ (itemBlocks exFeedTagTitle).filterMap (buildItemSpecWith cleanHTMLTags) = [] := by
  decide

theorem summary_shape (d : List Char) :
    d.take 500 ++ (if 500 < d.length then ellipsisStr else []) =
      if d.length ≤ 500 then d else d.take 500 ++ ellipsisStr := by
  by_cases h : d.length ≤ 500
  · rw [if_neg (by omega), if_pos h, List.take_of_length_le h, List.append_nil]
  · rw [if_pos (by omega), if_neg h]

theorem processItemScript_store_mem (fs : Bool) (item : RSSItem) (env : ItemEnv)
    (store : List Article) (a : Article)
    (h : a ∈ (processItemScript fs item env store).store) :
    a ∈ store ∨ ∃ i iso, env.dateISO = some iso ∧
      a = { mkPostData item (candidateScript fs item env.fetched) iso env.nowISO
            with id := i } := by
  unfold processItemScript at h
  cases hd : env.dateISO with
  | none => simp only [hd] at h; exact Or.inl h
  | some iso =>
    simp only [hd] at h
    cases hf : findByUrl store item.link with
    | some e =>
      simp only [hf] at h
      by_cases hg : fs = true ∨ e.content ≠ candidateScript fs item env.fetched
      · rw [if_pos hg] at h
        by_cases hw : env.writeOk = true
        · rw [if_pos hw] at h
          simp only [updateArticle, List.mem_map] at h
          rcases h with ⟨b, hb, hab⟩
          by_cases hbe : b.id = e.id
          · rw [if_pos hbe] at hab
            exact Or.inr ⟨e.id, iso, rfl, hab.symm⟩
          · rw [if_neg hbe] at hab
            exact Or.inl (hab ▸ hb)
        · rw [if_neg hw] at h
          exact Or.inl h
      · rw [if_neg hg] at h
        exact Or.inl h
    | none =>
      simp only [hf] at h
      by_cases hw : env.writeOk = true
      · rw [if_pos hw] at h
        simp only [insertArticle, List.mem_append, List.mem_singleton] at h
        rcases h with h | h
        · exact Or.inl h
        · exact Or.inr ⟨store.length, iso, rfl, h⟩
      · rw [if_neg hw] at h
        exact Or.inl h

theorem processItemEdge_store_mem (fs : Bool) (item : RSSItem) (env : ItemEnv)
    (store : List Article) (a : Article)
    (h : a ∈ (processItemEdge fs item env store).store) :
    a ∈ store ∨ ∃ i iso, env.dateISO = some iso ∧
      a = { mkPostDataEdge item (candidateEdge fs item env.fetched) iso env.nowISO
            with id := i } := by
  unfold processItemEdge at h
  cases hd : env.dateISO with
  | none => simp only [hd] at h; exact Or.inl h
  | some iso =>
    simp only [hd] at h
    cases hf : findByUrl store item.link with
    | some e =>
      simp only [hf] at h
      by_cases hw : env.writeOk = true
      · rw [if_pos hw] at h
        simp only [updateArticle, List.mem_map] at h
        rcases h with ⟨b, hb, hab⟩
        by_cases hbe : b.id = e.id
        · rw [if_pos hbe] at hab
          exact Or.inr ⟨e.id, iso, rfl, hab.symm⟩
        · rw [if_neg hbe] at hab
          exact Or.inl (hab ▸ hb)
      · rw [if_neg hw] at h
        exact Or.inl h
    | none =>
      simp only [hf] at h
      by_cases hw : env.writeOk = true
      · rw [if_pos hw] at h
        simp only [insertArticle, List.mem_append, List.mem_singleton] at h
        rcases h with h | h
        · exact Or.inl h
        · exact Or.inr ⟨store.length, iso, rfl, h⟩
      · rw [if_neg hw] at h
        exact Or.inl h

/-- Claim C7: in both pipeline variants the stored summary is computed
from the item's sanitized description only — it equals the description
when that is at most 500 characters and otherwise its first 500
characters followed by the ellipsis marker; any record a reconciliation
step adds to the store satisfies this formula (records already present
are untouched copies). -/
theorem stored_summary_from_description :
    (∀ (item : RSSItem) (content iso now : List Char),
      (mkPostData item content iso now).summary =
        if item.description.length ≤ 500 then item.description
        else item.description.take 500 ++ ellipsisStr)
    ∧ (∀ (item : RSSItem) (content iso now : List Char),
      (mkPostDataEdge item content iso now).summary =
        if item.description.length ≤ 500 then item.description
        else item.description.take 500 ++ ellipsisStr)
    ∧ (∀ (fs : Bool) (item : RSSItem) (env : ItemEnv) (store : List Article) (a : Article),
      a ∈ (processItemScript fs item env store).store → a ∈ store ∨
        a.summary = (if item.description.length ≤ 500 then item.description
          else item.description.take 500 ++ ellipsisStr))
    ∧ (∀ (fs : Bool) (item : RSSItem) (env : ItemEnv) (store : List Article) (a : Article),
      a ∈ (processItemEdge fs item env store).store → a ∈ store ∨
        a.summary = (if item.description.length ≤ 500 then item.description
          else item.description.take 500 ++ ellipsisStr)) := by
  refine ⟨?_, ?_, ?_, ?_⟩
  · intro item content iso now
    simp only [mkPostData]
    exact summary_shape item.description
  · intro item content iso now
    simp only [mkPostDataEdge]
    exact summary_shape item.description
  · intro fs item env store a h
    rcases processItemScript_store_mem fs item env store a h with h1 | ⟨i, iso, -, hEq⟩
    · exact Or.inl h1
    · refine Or.inr ?_
      rw [hEq]
      simp only [mkPostData]
      exact summary_shape item.description
  · intro fs item env store a h
    rcases processItemEdge_store_mem fs item env store a h with h1 | ⟨i, iso, -, hEq⟩
    · exact Or.inl h1
    · refine Or.inr ?_
      rw [hEq]
      simp only [mkPostDataEdge]
      exact summary_shape item.description

/-- Witness for C7: the record inserted for `itemA` satisfies the summary
formula. -/
theorem stored_summary_witness :
    articleA ∈ (processItemScript false itemA envOk []).store
    ∧ (articleA ∈ ([] : List Article) ∨ articleA.summary =
        (if itemA.description.length ≤ 500 then itemA.description
         else itemA.description.take 500 ++ ellipsisStr)) :=
  ⟨by decide,
   stored_summary_from_description.2.2.1 false itemA envOk [] articleA (by decide)⟩

/-- Claim C2 (amended): in the CLI script the candidate starts from the
sanitized description, a fetched body replaces it under full sync only
when strictly longer, and a present sanitized `content:encoded` then
replaces it only when strictly longer — so the candidate is one of the
available sources and no available source is longer (length, not source
priority, decides).  In the hosted edge variant this fails: a present
`content:encoded` replaces the candidate unconditionally (see
`content_candidate_edge_cex`). -/
theorem content_candidate_longest :
    (∀ (fs : Bool) (item : RSSItem) (fetched : List Char),
      (candidateScript fs item fetched = item.description
        ∨ (fs = true ∧ candidateScript fs item fetched = fetched)
        ∨ (¬item.contentEncoded.isEmpty ∧
            candidateScript fs item fetched = cleanHTMLTags item.contentEncoded))
      ∧ item.description.length ≤ (candidateScript fs item fetched).length
      ∧ (fs = true → fetched.length ≤ (candidateScript fs item fetched).length)
      ∧ (¬item.contentEncoded.isEmpty →
          (cleanHTMLTags item.contentEncoded).length ≤
            (candidateScript fs item fetched).length))
    ∧ (∀ (fs : Bool) (item : RSSItem) (fetched : List Char),
        ¬item.contentEncoded.isEmpty →
          candidateEdge fs item fetched = cleanHTMLTagsEdge item.contentEncoded) := by
  constructor
  · intro fs item fetched
    have main : ∀ c2 : List Char,
        item.description.length ≤ c2.length →
        ((if ¬item.contentEncoded.isEmpty then
            (if c2.length < (cleanHTMLTags item.contentEncoded).length then
              cleanHTMLTags item.contentEncoded else c2)
          else c2) = c2
        ∨ (¬item.contentEncoded.isEmpty ∧
            (if ¬item.contentEncoded.isEmpty then
              (if c2.length < (cleanHTMLTags item.contentEncoded).length then
                cleanHTMLTags item.contentEncoded else c2)
            else c2) = cleanHTMLTags item.contentEncoded))
        ∧ c2.length ≤ (if ¬item.contentEncoded.isEmpty then
            (if c2.length < (cleanHTMLTags item.contentEncoded).length then
              cleanHTMLTags item.contentEncoded else c2)
          else c2).length
        ∧ (¬item.contentEncoded.isEmpty →
            (cleanHTMLTags item.contentEncoded).length ≤
              (if ¬item.contentEncoded.isEmpty then
                (if c2.length < (cleanHTMLTags item.contentEncoded).length then
                  cleanHTMLTags item.contentEncoded else c2)
              else c2).length) := by
      intro c2 hd
      by_cases he : ¬item.contentEncoded.isEmpty
      · rw [if_pos he]
        by_cases hlt : c2.length < (cleanHTMLTags item.contentEncoded).length
        · rw [if_pos hlt]
          exact ⟨Or.inr ⟨he, rfl⟩, by omega, fun _ => by omega⟩
        · rw [if_neg hlt]
          exact ⟨Or.inl rfl, by omega, fun _ => by omega⟩
      · rw [if_neg he]
        exact ⟨Or.inl rfl, by omega, fun hcon => absurd hcon he⟩
    unfold candidateScript
    by_cases hf : fs = true
    · simp only [hf, if_true]
      by_cases h2 : ¬fetched.isEmpty ∧ item.description.length < fetched.length
      · rw [if_pos h2]
        rcases main fetched (by omega) with ⟨hm1, hm2, hm3⟩
        refine ⟨?_, by omega, fun _ => by omega, hm3⟩
        rcases hm1 with hm1 | ⟨hme, hm1⟩
        · exact Or.inr (Or.inl ⟨by trivial, hm1⟩)
        · exact Or.inr (Or.inr ⟨hme, hm1⟩)
      · rw [if_neg h2]
        rcases main item.description (le_refl _) with ⟨hm1, hm2, hm3⟩
        refine ⟨?_, by omega, fun _ => ?_, hm3⟩
        · rcases hm1 with hm1 | ⟨hme, hm1⟩
          · exact Or.inl hm1
          · exact Or.inr (Or.inr ⟨hme, hm1⟩)
        · by_cases hfe : fetched.isEmpty
          · have hfnil : fetched = [] := by
              cases fetched with
              | nil => rfl
              | cons x xs => simp at hfe
            rw [hfnil]
            simp
          · have hnl : ¬(item.description.length < fetched.length) :=
              fun hlen => h2 ⟨hfe, hlen⟩
            omega
    · have hf2 : fs = false := by
        cases fs
        · rfl
        · exact absurd rfl hf
      rw [hf2]
      simp only [Bool.false_eq_true, if_false]
      rcases main item.description (le_refl _) with ⟨hm1, hm2, hm3⟩
      refine ⟨?_, by omega, fun hcon => absurd hcon (by decide), hm3⟩
      rcases hm1 with hm1 | ⟨hme, hm1⟩
      · exact Or.inl hm1
      · exact Or.inr (Or.inr ⟨hme, hm1⟩)
  · intro fs item fetched he
    unfold candidateEdge
    rw [if_pos he]

/-- Claim C2 counterexample: for `itemEnc` (description of 20 characters,
`content:encoded` sanitizing to the single character x) the hosted edge
function stores content "x" — shorter than the description — while the
CLI script keeps the description, so in the edge variant content length
does not decide. -/
theorem content_candidate_edge_cex :
    (processItemEdge false itemEnc envOk []).store.map Article.content = [xStr]
    ∧ xStr.length < itemEnc.description.length
    ∧ candidateScript false itemEnc [] = itemEnc.description := by
  decide

/-- Witness for C2: the CLI candidate bounds applied to `itemEnc`. -/
theorem content_candidate_longest_witness :
    ¬itemEnc.contentEncoded.isEmpty
    ∧ (cleanHTMLTags itemEnc.contentEncoded).length ≤
        (candidateScript false itemEnc []).length :=
  ⟨by decide, (content_candidate_longest.1 false itemEnc []).2.2.2 (by decide)⟩

/-- Claim C1 (amended): in the CLI script, for an item whose link matches
a stored record (and whose date parses and whose write succeeds), an
update write happens exactly when full sync is requested or the candidate
content differs from the stored content, and otherwise the outcome is
`skipped` with the store untouched; reconciling a new item twice with
`fullSync = false` and unchanged inputs yields `inserted` then `skipped`
with no second write.  The hosted edge function instead updates an
existing record unconditionally (see
`reconcile_edge_updates_unchanged_cex`). -/
theorem reconcile_update_guard :
    (∀ (fs : Bool) (item : RSSItem) (env : ItemEnv) (store : List Article) (e : Article)
        (iso : List Char),
      findByUrl store item.link = some e → env.dateISO = some iso → env.writeOk = true →
      ((fs = true ∨ e.content ≠ candidateScript fs item env.fetched →
        (processItemScript fs item env store).outcome = Outcome.updated
        ∧ (processItemScript fs item env store).store =
            updateArticle store e.id
              (mkPostData item (candidateScript fs item env.fetched) iso env.nowISO))
      ∧ (¬(fs = true ∨ e.content ≠ candidateScript fs item env.fetched) →
        (processItemScript fs item env store).outcome = Outcome.skipped
        ∧ (processItemScript fs item env store).store = store)))
    ∧ (∀ (item : RSSItem) (env : ItemEnv) (iso : List Char) (store : List Article),
      findByUrl store item.link = none → env.dateISO = some iso → env.writeOk = true →
      (processItemScript false item env store).outcome = Outcome.inserted
      ∧ (processItemScript false item env
          (processItemScript false item env store).store).outcome = Outcome.skipped
      ∧ (processItemScript false item env
          (processItemScript false item env store).store).store =
          (processItemScript false item env store).store)
    ∧ (∀ (fs : Bool) (item : RSSItem) (env : ItemEnv) (store : List Article) (e : Article)
        (iso : List Char),
      findByUrl store item.link = some e → env.dateISO = some iso → env.writeOk = true →
      (processItemEdge fs item env store).outcome = Outcome.updated) := by
  refine ⟨?_, ?_, ?_⟩
  · intro fs item env store e iso hf hd hw
    constructor
    · intro hg
      unfold processItemScript
      simp only [hd, hf]
      rw [if_pos hg, if_pos hw]
      exact ⟨rfl, rfl⟩
    · intro hg
      unfold processItemScript
      simp only [hd, hf]
      rw [if_neg hg]
      exact ⟨rfl, rfl⟩
  · intro item env iso store hf hd hw
    have h1 : processItemScript false item env store =
        { store := insertArticle store
            (mkPostData item (candidateScript false item env.fetched) iso env.nowISO),
          outcome := Outcome.inserted, threw := false } := by
      unfold processItemScript
      simp only [hd, hf]
      rw [if_pos hw]
    have hfind : findByUrl
        (insertArticle store
          (mkPostData item (candidateScript false item env.fetched) iso env.nowISO))
        item.link =
        some { mkPostData item (candidateScript false item env.fetched) iso env.nowISO
               with id := store.length } := by
      unfold findByUrl insertArticle
      rw [List.find?_append]
      unfold findByUrl at hf
      rw [hf]
      simp [List.find?, mkPostData]
    refine ⟨by rw [h1], ?_, ?_⟩
    · rw [h1]
      unfold processItemScript
      simp only [hd, hfind]
      rw [if_neg ?_]
      rintro (hcon | hcon)
      · exact absurd hcon (by decide)
      · exact hcon rfl
    · rw [h1]
      unfold processItemScript
      simp only [hd, hfind]
      rw [if_neg ?_]
      rintro (hcon | hcon)
      · exact absurd hcon (by decide)
      · exact hcon rfl
  · intro fs item env store e iso hf hd hw
    unfold processItemEdge
    simp only [hd, hf]
    rw [if_pos hw]

/-- Claim C1 counterexample: reconciling the same unchanged item twice
through the hosted edge function with `fullSync = false` yields
`inserted` then `updated` — a second write happens where the claim
requires `skipped` — even though the stored content equals the
candidate. -/
theorem reconcile_edge_updates_unchanged_cex :
    (processItemEdge false itemA envOk []).outcome = Outcome.inserted
    ∧ (processItemEdge false itemA envOk []).store.map Article.content =
        [itemA.description]
    ∧ candidateEdge false itemA [] = itemA.description
    ∧ (processItemEdge false itemA envOk
        (processItemEdge false itemA envOk []).store).outcome = Outcome.updated := by
  decide

/-- Witness for C1: the two-run part applied to `itemA` on the empty
store. -/
theorem reconcile_update_guard_witness :
    (processItemScript false itemA envOk []).outcome = Outcome.inserted
    ∧ (processItemScript false itemA envOk
        (processItemScript false itemA envOk []).store).outcome = Outcome.skipped
    ∧ (processItemScript false itemA envOk
        (processItemScript false itemA envOk []).store).store =
        (processItemScript false itemA envOk []).store :=
  reconcile_update_guard.2.1 itemA envOk isoD [] (by decide) (by decide) (by decide)

theorem processItemScript_threw (fs : Bool) (item : RSSItem) (env : ItemEnv)
    (store : List Article) :
    (processItemScript fs item env store).threw = env.dateISO.isNone := by
  unfold processItemScript
  cases hd : env.dateISO with
  | none => simp [hd]
  | some iso =>
    simp only [hd, Option.isNone_some]
    cases hf : findByUrl store item.link <;> simp only [hf] <;> split_ifs <;> rfl

theorem runItemsScript_outcomes_length (fs : Bool) (total : Nat) :
    ∀ (pairs : List (RSSItem × ItemEnv)) (idx : Nat) (store : List Article),
      (runItemsScript fs total idx store pairs).outcomes.length = pairs.length := by
  intro pairs
  induction pairs with
  | nil => intro idx store; rfl
  | cons pr rest ih =>
    intro idx store
    cases pr with
    | mk item env => simp [runItemsScript, ih]

theorem runItemsScript_stats (fs : Bool) (total : Nat) :
    ∀ (pairs : List (RSSItem × ItemEnv)) (idx : Nat) (store : List Article),
      (runItemsScript fs total idx store pairs).stats =
        { newCount := (runItemsScript fs total idx store pairs).outcomes.count
            Outcome.inserted,
          updatedCount := (runItemsScript fs total idx store pairs).outcomes.count
            Outcome.updated,
          errorCount := (runItemsScript fs total idx store pairs).outcomes.count
            Outcome.errored } := by
  intro pairs
  induction pairs with
  | nil => intro idx store; rfl
  | cons pr rest ih =>
    intro idx store
    cases pr with
    | mk item env =>
      simp only [runItemsScript, List.count_cons, ih]
      cases houtcome : (processItemScript fs item env store).outcome <;>
        simp [bumpStats, houtcome]

theorem runItemsEdge_outcomes_length (fs : Bool) :
    ∀ (pairs : List (RSSItem × ItemEnv)) (store : List Article),
      (runItemsEdge fs store pairs).outcomes.length = pairs.length := by
  intro pairs
  induction pairs with
  | nil => intro store; rfl
  | cons pr rest ih =>
    intro store
    cases pr with
    | mk item env => simp [runItemsEdge, ih]

theorem runItemsEdge_stats (fs : Bool) :
    ∀ (pairs : List (RSSItem × ItemEnv)) (store : List Article),
      (runItemsEdge fs store pairs).stats =
        { newCount := (runItemsEdge fs store pairs).outcomes.count Outcome.inserted,
          updatedCount := (runItemsEdge fs store pairs).outcomes.count Outcome.updated } := by
  intro pairs
  induction pairs with
  | nil => intro store; rfl
  | cons pr rest ih =>
    intro store
    cases pr with
    | mk item env =>
      simp only [runItemsEdge, List.count_cons, ih]
      cases houtcome : (processItemEdge fs item env store).outcome <;>
        simp [bumpEdgeStats, houtcome]

theorem runItemsEdge_delays (fs : Bool) :
    ∀ (pairs : List (RSSItem × ItemEnv)) (store : List Article),
      (runItemsEdge fs store pairs).delays = [] := by
  intro pairs
  induction pairs with
  | nil => intro store; rfl
  | cons pr rest ih =>
    intro store
    cases pr with
    | mk item env => simp [runItemsEdge, ih]

theorem runItemsScript_delays_false (total : Nat) :
    ∀ (pairs : List (RSSItem × ItemEnv)) (idx : Nat) (store : List Article),
      (runItemsScript false total idx store pairs).delays = [] := by
  intro pairs
  induction pairs with
  | nil => intro idx store; rfl
  | cons pr rest ih =>
    intro idx store
    cases pr with
    | mk item env => simp [runItemsScript, ih]

theorem runItemsScript_delays_mem (total : Nat) :
    ∀ (pairs : List (RSSItem × ItemEnv)) (idx : Nat) (store : List Article) (i : Nat),
      i ∈ (runItemsScript true total idx store pairs).delays ↔
        ∃ j pr, pairs.get? j = some pr ∧ i = idx + j ∧ idx + j < total - 1
          ∧ pr.2.dateISO.isSome := by
  intro pairs
  induction pairs with
  | nil =>
    intro idx store i
    simp [runItemsScript]
  | cons pr rest ih =>
    intro idx store i
    cases pr with
    | mk item env =>
      simp only [runItemsScript]
      rw [List.mem_append]
      have hthrew := processItemScript_threw true item env store
      constructor
      · rintro (hin | hin)
        · by_cases hc : True ∧ idx < total - 1 ∧
              (processItemScript true item env store).threw = false
          · rw [if_pos hc] at hin
            rcases hc with ⟨-, hlt, hthrew0⟩
            rw [List.mem_singleton] at hin
            refine ⟨0, (item, env), rfl, by omega, by omega, ?_⟩
            rw [hthrew] at hthrew0
            cases hdi : env.dateISO with
            | none => rw [hdi] at hthrew0; simp at hthrew0
            | some iso => simp
          · rw [if_neg hc] at hin
            simp at hin
        · rcases (ih (idx + 1) (processItemScript true item env store).store i).mp hin
            with ⟨j, pr2, hget, hi, hlt, hsome⟩
          exact ⟨j + 1, pr2, by simpa using hget, by omega, by omega, hsome⟩
      · rintro ⟨j, pr2, hget, hi, hlt, hsome⟩
        cases j with
        | zero =>
          left
          simp only [List.get?_cons_zero, Option.some.injEq] at hget
          have hc : True ∧ idx < total - 1 ∧
              (processItemScript true item env store).threw = false := by
            refine ⟨trivial, by omega, ?_⟩
            rw [hthrew]
            rw [← hget] at hsome
            cases hdi : env.dateISO with
            | none => rw [hdi] at hsome; simp at hsome
            | some iso => simp
          rw [if_pos hc, List.mem_singleton]
          omega
        | succ j =>
          right
          exact (ih (idx + 1) (processItemScript true item env store).store i).mpr
            ⟨j, pr2, by simpa using hget, by omega, by omega, hsome⟩

/-- Claim C8 (amended): in the CLI script with `fullSync = true` the
1-second delay is awaited after exactly the non-final items whose
processing completes without a thrown exception (the delay sits at the
end of the `try` block, so an item whose date conversion throws gets no
delay even though its page fetch happened); with `fullSync = false` no
delay ever occurs.  The hosted edge function never delays at all,
regardless of `fullSync` (see `edge_run_no_delay_cex`). -/
theorem rate_limit_delay :
    (∀ (total : Nat) (pairs : List (RSSItem × ItemEnv)) (idx : Nat)
        (store : List Article),
      (runItemsScript false total idx store pairs).delays = [])
    ∧ (∀ (total : Nat) (pairs : List (RSSItem × ItemEnv)) (store : List Article)
        (i : Nat),
      i ∈ (runItemsScript true total 0 store pairs).delays ↔
        ∃ pr, pairs.get? i = some pr ∧ i < total - 1 ∧ pr.2.dateISO.isSome)
    ∧ (∀ (fs : Bool) (pairs : List (RSSItem × ItemEnv)) (store : List Article),
      (runItemsEdge fs store pairs).delays = []) := by
  refine ⟨fun total pairs idx store => runItemsScript_delays_false total pairs idx store,
    ?_, fun fs pairs store => runItemsEdge_delays fs pairs store⟩
  intro total pairs store i
  rw [runItemsScript_delays_mem total pairs 0 store i]
  constructor
  · rintro ⟨j, pr, hget, hi, hlt, hsome⟩
    have : j = i := by omega
    subst this
    exact ⟨pr, hget, by omega, hsome⟩
  · rintro ⟨pr, hget, hlt, hsome⟩
    exact ⟨i, pr, hget, by omega, by omega, hsome⟩

/-- Claim C8 counterexample: a two-item full-sync run of the hosted edge
function awaits no delay at all, though the claim requires one after the
first item. -/
theorem edge_run_no_delay_cex :
    (runItemsEdge true [] [(itemA, envOk), (itemEnc, envOk)]).delays = []
    ∧ (runItemsEdge true [] [(itemA, envOk), (itemEnc, envOk)]).outcomes.length = 2 := by
  decide

/-- Witness for C8: in a two-item CLI full-sync run with parseable dates,
a delay is awaited after the first item. -/
theorem rate_limit_delay_witness :
    0 ∈ (runItemsScript true 2 0 [] [(itemA, envOk), (itemEnc, envOk)]).delays :=
  (rate_limit_delay.2.1 2 [(itemA, envOk), (itemEnc, envOk)] [] 0).mpr
    ⟨(itemA, envOk), rfl, by decide, by decide⟩

/-- Claim C9: an item whose `pubDate` text is present but unparseable
survives parsing (the raw field is non-empty), its per-item ISO
conversion throws, the exception is caught and the outcome is `errored`
(not `skipped`) with no record written, the error counter grows, and the
loop still processes every item. -/
theorem bad_date_item_errored_and_run_continues :
    (parseRSSFeed exBadDateFeed).map RSSItem.pubDate = [badDateStr]
    ∧ (∀ (fs : Bool) (item : RSSItem) (env : ItemEnv) (store : List Article),
        env.dateISO = none →
        processItemScript fs item env store =
          { store := store, outcome := Outcome.errored, threw := true })
    ∧ (∀ (fs : Bool) (total idx : Nat) (store : List Article)
        (pairs : List (RSSItem × ItemEnv)),
        (runItemsScript fs total idx store pairs).outcomes.length = pairs.length)
    ∧ (∀ (fs : Bool) (total idx : Nat) (store : List Article) (item : RSSItem)
        (env : ItemEnv) (rest : List (RSSItem × ItemEnv)),
        env.dateISO = none →
        1 ≤ (runItemsScript fs total idx store ((item, env) :: rest)).stats.errorCount) := by
  refine ⟨by decide, ?_, ?_, ?_⟩
  · intro fs item env store hd
    unfold processItemScript
    simp only [hd]
  · intro fs total idx store pairs
    exact runItemsScript_outcomes_length fs total pairs idx store
  · intro fs total idx store item env rest hd
    have hp : processItemScript fs item env store =
        { store := store, outcome := Outcome.errored, threw := true } := by
      unfold processItemScript
      simp only [hd]
    simp only [runItemsScript, hp, bumpStats]
    omega

/-- Witness for C9: the unparseable-date oracles applied to a concrete
item. -/
theorem bad_date_witness :
    processItemScript false itemA envBadDate [] =
      { store := [], outcome := Outcome.errored, threw := true } :=
  bad_date_item_errored_and_run_continues.2.1 false itemA envBadDate [] (by decide)

/-- Claim C6 (amended): in the CLI script every modelled per-item failure
— a thrown date conversion, a failed insert, and a failed update — yields
outcome `errored` without halting the loop: the failing item leaves the
store untouched, contributes exactly one to the run's error counter
(which equals the number of errored outcomes), and every item is still
processed; the run as a whole fails exactly when the initial feed fetch
fails.  In the hosted edge function the loop also continues past
failures and fails only on a feed-fetch failure, but its reported
counters are only `newPosts` and `updatedPosts`: no errored count exists
there (see `edge_run_error_uncounted_cex`). -/
theorem sync_errors_counted_and_continue :
    (∀ (fs : Bool) (feed : Option (List Char)) (envs : List ItemEnv)
        (store : List Article),
      syncSubstackContent fs feed envs store = Except.error () ↔ feed = none)
    ∧ (∀ (fs : Bool) (item : RSSItem) (env : ItemEnv) (store : List Article),
      env.dateISO = none →
      processItemScript fs item env store =
        { store := store, outcome := Outcome.errored, threw := true })
    ∧ (∀ (fs : Bool) (item : RSSItem) (env : ItemEnv) (store : List Article)
        (iso : List Char),
      findByUrl store item.link = none → env.dateISO = some iso →
      env.writeOk = false →
      processItemScript fs item env store =
        { store := store, outcome := Outcome.errored, threw := false })
    ∧ (∀ (fs : Bool) (item : RSSItem) (env : ItemEnv) (store : List Article)
        (e : Article) (iso : List Char),
      findByUrl store item.link = some e → env.dateISO = some iso →
      env.writeOk = false →
      (fs = true ∨ e.content ≠ candidateScript fs item env.fetched) →
      processItemScript fs item env store =
        { store := store, outcome := Outcome.errored, threw := false })
    ∧ (∀ (fs : Bool) (total idx : Nat) (store : List Article) (item : RSSItem)
        (env : ItemEnv) (rest : List (RSSItem × ItemEnv)),
      (processItemScript fs item env store).outcome = Outcome.errored →
      (runItemsScript fs total idx store ((item, env) :: rest)).stats.errorCount =
        (runItemsScript fs total (idx + 1) (processItemScript fs item env store).store
          rest).stats.errorCount + 1)
    ∧ (∀ (fs : Bool) (total idx : Nat) (store : List Article)
        (pairs : List (RSSItem × ItemEnv)),
      (runItemsScript fs total idx store pairs).outcomes.length = pairs.length
      ∧ (runItemsScript fs total idx store pairs).stats.errorCount =
          (runItemsScript fs total idx store pairs).outcomes.count Outcome.errored)
    ∧ (∀ (fs : Bool) (feed : Option (List Char)) (envs : List ItemEnv)
        (store : List Article),
      serveSync fs feed envs store = Except.error () ↔ feed = none)
    ∧ (∀ (fs : Bool) (store : List Article) (pairs : List (RSSItem × ItemEnv)),
      (runItemsEdge fs store pairs).outcomes.length = pairs.length
      ∧ (runItemsEdge fs store pairs).stats =
          { newCount := (runItemsEdge fs store pairs).outcomes.count Outcome.inserted,
            updatedCount :=
              (runItemsEdge fs store pairs).outcomes.count Outcome.updated }) := by
  refine ⟨?_, ?_, ?_, ?_, ?_, ?_, ?_, ?_⟩
  · intro fs feed envs store
    cases feed with
    | none => simp [syncSubstackContent]
    | some text => simp [syncSubstackContent]
  · intro fs item env store hd
    unfold processItemScript
    simp only [hd]
  · intro fs item env store iso hf hd hw
    unfold processItemScript
    simp only [hd, hf]
    rw [if_neg (by rw [hw]; exact Bool.false_ne_true)]
  · intro fs item env store e iso hf hd hw hg
    unfold processItemScript
    simp only [hd, hf]
    rw [if_pos hg, if_neg (by rw [hw]; exact Bool.false_ne_true)]
  · intro fs total idx store item env rest houtcome
    simp only [runItemsScript]
    rw [houtcome]
    rfl
  · intro fs total idx store pairs
    refine ⟨runItemsScript_outcomes_length fs total pairs idx store, ?_⟩
    rw [runItemsScript_stats fs total pairs idx store]
  · intro fs feed envs store
    cases feed with
    | none => simp [serveSync]
    | some text => simp [serveSync]
  · intro fs store pairs
    refine ⟨runItemsEdge_outcomes_length fs pairs store, ?_⟩
    rw [runItemsEdge_stats fs pairs store]

/-- Claim C6 counterexample: in the hosted edge function a failed insert
leaves every reported counter equal to those of an empty run — the error
is caught and logged but counted nowhere, where the claim requires an
incremented errored count. -/
theorem edge_run_error_uncounted_cex :
    (runItemsEdge false [] [(itemA, envNoWrite)]).outcomes = [Outcome.errored]
    ∧ (runItemsEdge false [] [(itemA, envNoWrite)]).stats =
        (runItemsEdge false [] ([] : List (RSSItem × ItemEnv))).stats
    ∧ (runItemsEdge false [] [(itemA, envNoWrite)]).store = [] := by
  decide

/-- Witness for C6: a thrown date conversion, a failed insert and a
failed update each yield `errored` with no write at concrete inputs, and
the failing item adds exactly one to the run's error counter. -/
theorem sync_errors_witness :
    processItemScript false itemA envBadDate [] =
      { store := [], outcome := Outcome.errored, threw := true }
    ∧ processItemScript false itemA envNoWrite [] =
      { store := [], outcome := Outcome.errored, threw := false }
    ∧ processItemScript false itemA envNoWrite [articleOld] =
      { store := [articleOld], outcome := Outcome.errored, threw := false }
    ∧ (runItemsScript false 1 0 [] [(itemA, envNoWrite)]).stats.errorCount =
        (runItemsScript false 1 (0 + 1) (processItemScript false itemA envNoWrite []).store
          ([] : List (RSSItem × ItemEnv))).stats.errorCount + 1 :=
  ⟨sync_errors_counted_and_continue.2.1 false itemA envBadDate [] (by decide),
   sync_errors_counted_and_continue.2.2.1 false itemA envNoWrite [] isoD
     (by decide) (by decide) (by decide),
   sync_errors_counted_and_continue.2.2.2.1 false itemA envNoWrite [articleOld]
     articleOld isoD (by decide) (by decide) (by decide) (by decide),
   sync_errors_counted_and_continue.2.2.2.2.1 false 1 0 [] itemA envNoWrite []
     (by decide)⟩

theorem tryLoop_spec : ∀ (ps : List (List Tok)) (html : List Char),
    (tryLoop ps html = [] ∧ ∀ p ∈ ps, ∀ m, regexFind p html = some m →
        (cleanHTMLTags m).length ≤ 100)
    ∨ (∃ ps1 p ps2 m, ps = ps1 ++ p :: ps2 ∧ regexFind p html = some m
        ∧ tryLoop ps html = cleanHTMLTags m ∧ 100 < (cleanHTMLTags m).length
        ∧ ∀ q ∈ ps1, ∀ m2, regexFind q html = some m2 →
            (cleanHTMLTags m2).length ≤ 100) := by
  intro ps html
  induction ps with
  | nil => exact Or.inl ⟨rfl, by simp⟩
  | cons p ps ih =>
    cases hm : regexFind p html with
    | none =>
      rcases ih with ⟨hempty, hall⟩ | ⟨ps1, q, ps2, m, hps, hq, hval, hlen, hfirst⟩
      · left
        refine ⟨by simp [tryLoop, hm, hempty], ?_⟩
        intro q hq m hqm
        rcases List.mem_cons.mp hq with rfl | hq2
        · rw [hm] at hqm; cases hqm
        · exact hall q hq2 m hqm
      · right
        refine ⟨p :: ps1, q, ps2, m, by rw [hps]; rfl, hq, ?_, hlen, ?_⟩
        · simp [tryLoop, hm, hval]
        · intro r hr m2 hrm
          rcases List.mem_cons.mp hr with rfl | hr2
          · rw [hm] at hrm; cases hrm
          · exact hfirst r hr2 m2 hrm
    | some m =>
      by_cases hlen : 100 < (cleanHTMLTags m).length
      · right
        exact ⟨[], p, ps, m, rfl, hm, by simp [tryLoop, hm, hlen], hlen, by simp⟩
      · rcases ih with ⟨hempty, hall⟩ | ⟨ps1, q, ps2, m2, hps, hq, hval, hlen2, hfirst⟩
        · left
          refine ⟨by simp [tryLoop, hm, hlen, hempty], ?_⟩
          intro q hq m2 hqm
          rcases List.mem_cons.mp hq with rfl | hq2
          · rw [hm] at hqm
            cases hqm
            omega
          · exact hall q hq2 m2 hqm
        · right
          refine ⟨p :: ps1, q, ps2, m2, by rw [hps]; rfl, hq,
            by simp [tryLoop, hm, hlen, hval], hlen2, ?_⟩
          intro r hr m3 hrm
          rcases List.mem_cons.mp hr with rfl | hr2
          · rw [hm] at hrm
            cases hrm
            omega
          · exact hfirst r hr2 m3 hrm

/-- Claim C5 (amended): the CLI `getFullPostContent` never raises, yields
the empty string on transport failure or non-ok response, and on success
tries the four structural patterns (markup div, post-content div, article
tag, body div) in priority order, returning the sanitized capture of the
first pattern whose sanitized text exceeds 100 characters — the empty
string when no pattern qualifies, so its result is empty or longer than
100.  The hosted edge variant differs: it has only two patterns (markup
div, article) and no substantial-content threshold — a successful match
is returned however short (see `fetch_body_edge_short_cex`). -/
theorem fetch_body_threshold :
    getFullPostContent FetchResult.fail = []
    ∧ (∀ html : List Char, getFullPostContent (FetchResult.ok html) = []
        ∨ 100 < (getFullPostContent (FetchResult.ok html)).length)
    ∧ (∀ html : List Char,
        (getFullPostContent (FetchResult.ok html) = [] ∧
          ∀ p ∈ contentSelectors, ∀ m, regexFind p html = some m →
            (cleanHTMLTags m).length ≤ 100)
        ∨ (∃ ps1 p ps2 m, contentSelectors = ps1 ++ p :: ps2
            ∧ regexFind p html = some m
            ∧ getFullPostContent (FetchResult.ok html) = cleanHTMLTags m
            ∧ 100 < (cleanHTMLTags m).length
            ∧ ∀ q ∈ ps1, ∀ m2, regexFind q html = some m2 →
                (cleanHTMLTags m2).length ≤ 100))
    ∧ getFullPostContentEdge FetchResult.fail = []
    ∧ (∀ (html m : List Char), regexFind markupDivPat html = some m →
        getFullPostContentEdge (FetchResult.ok html) = cleanHTMLTagsEdge m) := by
  refine ⟨rfl, ?_, ?_, rfl, ?_⟩
  · intro html
    rcases tryLoop_spec contentSelectors html with ⟨hempty, -⟩ |
      ⟨ps1, p, ps2, m, hps, hm, hval, hlen, -⟩
    · exact Or.inl hempty
    · right
      show 100 < (tryLoop contentSelectors html).length
      rw [hval]
      exact hlen
  · intro html
    exact tryLoop_spec contentSelectors html
  · intro html m hm
    unfold getFullPostContentEdge
    simp only [hm]

/-- Claim C5 counterexample: a page whose markup div sanitizes to the
two-character string "hi" — far below the 100-character threshold.  The
hosted edge fetcher returns it anyway; the CLI fetcher returns the empty
string as the claim requires. -/
theorem fetch_body_edge_short_cex :
    getFullPostContentEdge (FetchResult.ok exShortHtml) = hiStr
    ∧ hiStr ≠ [] ∧ hiStr.length ≤ 100
    ∧ getFullPostContent (FetchResult.ok exShortHtml) = [] := by
  decide

/-- Witness for C5: the edge conjunct applied to the concrete short
page. -/
theorem fetch_body_threshold_witness :
    getFullPostContentEdge (FetchResult.ok exShortHtml) = cleanHTMLTagsEdge hiStr :=
  fetch_body_threshold.2.2.2.2 exShortHtml hiStr (by decide)
